import Mathlib

/-!
Verification of the `fips-check` binary compliance engine against its
specification.  The definitions below are a shallow embedding of the Go
sources (`internal/binarychecker/binarychecker.go` and callers): pure
functions are translated directly, the concurrent orchestrator is modelled
by explicit logical observation times for each context-cancellation check,
and the buffered-channel semaphore is modelled by a step relation.
-/

namespace FipsCheck

/-! ## String primitives (Go `strings.HasPrefix` / `strings.Contains`) -/

/-- Go `strings.HasPrefix` on character lists: `charsStartWith s p` is true
when `p` is an initial segment of `s`. -/
def charsStartWith : List Char → List Char → Bool
  | _, [] => true
  | [], _ :: _ => false
  | a :: s, b :: p => a == b && charsStartWith s p

/-- Go `strings.Contains` on character lists: `charsContains hay needle` is
true when `needle` occurs contiguously inside `hay`. -/
def charsContains : List Char → List Char → Bool
  | [], needle => needle.isEmpty
  | a :: hay, needle => charsStartWith (a :: hay) needle || charsContains hay needle

/-- Go `strings.HasPrefix` on strings. -/
def strStartsWith (s pre : String) : Bool :=
  charsStartWith s.data pre.data

/-- Go `strings.Contains` on strings. -/
def strContainsSub (s sub : String) : Bool :=
  charsContains s.data sub.data

/-! ## Data model (structs of `binarychecker.go`) -/

/-- One entry of `debug/buildinfo` `info.Settings`. -/
structure BuildSetting where
  key : String
  value : String
  deriving DecidableEq, Repr

/-- The part of `debug/buildinfo.BuildInfo` read by `checkGoBinaryFIPS`:
`info.GoVersion`, `info.Main.Path` and `info.Settings`. -/
structure BuildInfo where
  goVersion : String
  mainPath : String
  settings : List BuildSetting
  deriving DecidableEq, Repr

/-- Go struct `GoBinaryReportDetails`. -/
structure GoBinaryReportDetails where
  goVersion : String
  module : String
  useSystemcrypto : Bool
  cgoEnabled : Bool
  failsOnFIPSCheck : Bool
  runtimePanicLog : String
  deriving DecidableEq, Repr

/-- The Go zero value of `GoBinaryReportDetails` (fresh `details :=
GoBinaryReportDetails{}` in `checkGoBinaryFIPS`, and the zero slot of
`make([]BinaryReport, n)`). -/
def zeroDetails : GoBinaryReportDetails :=
  { goVersion := ""
    module := ""
    useSystemcrypto := false
    cgoEnabled := false
    failsOnFIPSCheck := false
    runtimePanicLog := "" }

/-- The distinct error values that `binarychecker` can attach to a report
or return from `Check`. -/
inductive ReportError where
  /-- `ctx.Err()` observed inside `checkGoBinaryFIPS`. -/
  | cancelled
  /-- `failed to read build info: ...` from `buildinfo.ReadFile`. -/
  | extractionFailed
  /-- `runtime FIPS check failed: ...` wrapping an error from
  `checkRuntimeFIPS`. -/
  | probeFailed
  deriving DecidableEq, Repr

/-- Go struct `BinaryReport`. -/
structure BinaryReport where
  relativePath : String
  type : String
  goBinaryDetails : GoBinaryReportDetails
  error : Option ReportError
  deriving DecidableEq, Repr

/-- The Go zero value of `BinaryReport`, the content of a slot of
`reports := make([]BinaryReport, len(binaryPaths))` before any write. -/
def zeroReport : BinaryReport :=
  { relativePath := ""
    type := ""
    goBinaryDetails := zeroDetails
    error := none }

/-- Errors returned by `Check` itself. -/
inductive CheckError where
  /-- `ctx.Err()` surfaced from the dispatch loop or the final check. -/
  | cancelled
  /-- `error walking directory tree: ...` (the walk surfaced `ctx.Err()`). -/
  | walkCancelled
  deriving DecidableEq, Repr

/-! ## Runtime probe (`checkRuntimeFIPS`, lines 269-321) -/

/-- The observable outcome of `cmd.Run()` on one candidate:
the captured stderr text, whether `cmd.Run()` returned a non-nil error
(covering start failures, non-zero exits and kills alike — the source
never distinguishes them), and whether `execCtx.Err()` is
`context.DeadlineExceeded` (the 2-second timeout fired). -/
structure ExecOutcome where
  stderrOutput : String
  runFailed : Bool
  deadlineExceeded : Bool
  deriving DecidableEq, Repr

/-- The fixed marker substrings scanned for in stderr
(`fipsPanicIndicators` in the source). -/
def fipsPanicIndicators : List String :=
  [ "panic: opensslcrypto: FIPS mode requested"
  , "FIPS mode requested"
  , "but not available in OpenSSL" ]

/-- `checkRuntimeFIPS` result: (passed, capturedLog, error).
Transcribed branch by branch from the source; note every return path of
the Go function carries a nil error. -/
def checkRuntimeFIPS (o : ExecOutcome) : Bool × String × Option ReportError :=
  if fipsPanicIndicators.any (fun ind => strContainsSub o.stderrOutput ind) then
    (false, o.stderrOutput, none)
  else if o.runFailed then
    if o.deadlineExceeded then
      (true, o.stderrOutput, none)
    else if !(strContainsSub o.stderrOutput "FIPS") then
      (true, o.stderrOutput, none)
    else
      (true, o.stderrOutput, none)
  else
    (true, o.stderrOutput, none)

/-! ## Static metadata extraction (`checkGoBinaryFIPS`, lines 203-251) -/

/-- One iteration of the `for _, setting := range info.Settings` loop
over the accumulator `(CGOEnabled, UseSystemcrypto)`: the Go `switch` —
`CGO_ENABLED` overwrites the flag with `setting.Value == "1"`,
`GOEXPERIMENT` only ever sets the flag to true. -/
def scanStep (acc : Bool × Bool) (s : BuildSetting) : Bool × Bool :=
  if s.key == "CGO_ENABLED" then
    (s.value == "1", acc.2)
  else if s.key == "GOEXPERIMENT" then
    if strContainsSub s.value "systemcrypto" then (acc.1, true) else acc
  else acc

/-- The full settings loop, starting from the zero-valued flags. -/
def scanSettings (settings : List BuildSetting) : Bool × Bool :=
  settings.foldl scanStep (false, false)

/-- Is this setting the native-interop key? -/
def isCgoSetting (s : BuildSetting) : Bool :=
  s.key == "CGO_ENABLED"

/-- The effect of one setting on the `CGOEnabled` flag alone. -/
def cgoFold (a : Bool) (s : BuildSetting) : Bool :=
  if s.key == "CGO_ENABLED" then s.value == "1" else a

/-- Does this setting switch `UseSystemcrypto` on? -/
def sysFlagOf (s : BuildSetting) : Bool :=
  s.key == "GOEXPERIMENT" && strContainsSub s.value "systemcrypto"

/-- A well-formed settings list of a systemcrypto build, used as witness
input. -/
def goodSettings : List BuildSetting :=
  [⟨"CGO_ENABLED", "1"⟩, ⟨"GOEXPERIMENT", "opensslcrypto,systemcrypto"⟩]

/-- A discovered candidate binary: its path relative to the scan root and
the environment's answers for it (its build provenance — `none` models a
`buildinfo.ReadFile` failure — and the outcome of executing it). -/
structure Candidate where
  relPath : String
  info : Option BuildInfo
  probe : ExecOutcome
  deriving DecidableEq, Repr

/-- `checkGoBinaryFIPS`: the cancellation check at entry, provenance
extraction, the settings scan and the runtime probe, in source order.
`cancelled` is the value of the `ctx.Done()` observation at entry. -/
def checkGoBinaryFIPS (cancelled : Bool) (c : Candidate) :
    GoBinaryReportDetails × Option ReportError :=
  if cancelled then
    (zeroDetails, some .cancelled)
  else
    match c.info with
    | none => (zeroDetails, some .extractionFailed)
    | some info =>
      let flags := scanSettings info.settings
      let d0 : GoBinaryReportDetails :=
        { goVersion := info.goVersion
          module := if info.mainPath ≠ "" then info.mainPath else ""
          useSystemcrypto := flags.2
          cgoEnabled := flags.1
          failsOnFIPSCheck := false
          runtimePanicLog := "" }
      match checkRuntimeFIPS c.probe with
      | (_, _, some e) => (d0, some e)
      | (passed, log, none) =>
        ({ d0 with runtimePanicLog := log, failsOnFIPSCheck := !passed }, none)

/-- The report a check task builds for its candidate (`Check`, lines
122-130).  `cancelledInner` is the cancellation observation at the entry
of `checkGoBinaryFIPS`. -/
def mkReport (cancelledInner : Bool) (c : Candidate) : BinaryReport :=
  { relativePath := c.relPath
    type := "gobinary"
    goBinaryDetails := (checkGoBinaryFIPS cancelledInner c).1
    error := (checkGoBinaryFIPS cancelledInner c).2 }

/-! ## Concurrency orchestrator (`Check`, lines 86-146)

Cancellation is modelled by a boolean function of logical time; the real
`context` is monotone (once `ctx.Done()` is closed it stays closed), which
is the `MonotoneCancel` hypothesis.  Each task has three observation
times: the dispatch-loop check before its goroutine is started (lines
93-99), the goroutine's own check after acquiring the semaphore (lines
110-114), and the check at the entry of `checkGoBinaryFIPS` (lines
207-211).  The final `ctx.Err()` check (line 141) happens after
`wg.Wait()`, hence after every task observation. -/

/-- Once cancelled, always cancelled: the defining property of
`ctx.Done()`/`ctx.Err()`. -/
def MonotoneCancel (cancelAt : Nat → Bool) : Prop :=
  ∀ s t : Nat, s ≤ t → cancelAt s = true → cancelAt t = true

/-- The never-fired cancellation signal. -/
def neverCancel : Nat → Bool := fun _ => false

/-- Logical observation times of one check task's three cancellation
checks. -/
structure TaskSchedule where
  dispatch : Nat
  taskObs : Nat
  innerObs : Nat
  deriving DecidableEq, Repr

/-- One goroutine body (lines 102-135): if the goroutine observes
cancellation after acquiring the semaphore it returns without writing its
slot (`none`); otherwise it writes the report it computed. -/
def runTask (cancelAt : Nat → Bool) (sched : TaskSchedule) (c : Candidate) :
    Option BinaryReport :=
  if cancelAt sched.taskObs then none
  else some (mkReport (cancelAt sched.innerObs) c)

/-- The dispatch loop (lines 93-136): before starting each task the loop
checks cancellation and, if it fired, `Check` returns immediately.
Returns how many tasks were dispatched and, when the loop ran to the end,
the slot contents each task left behind. -/
def dispatchAll (cancelAt : Nat → Bool) (sched : Nat → TaskSchedule) :
    Nat → List Candidate → Nat × Option (List (Option BinaryReport))
  | _, [] => (0, some [])
  | i, c :: rest =>
    if cancelAt (sched i).dispatch then (0, none)
    else
      match dispatchAll cancelAt sched (i + 1) rest with
      | (d, none) => (d + 1, none)
      | (d, some slots) => (d + 1, some (runTask cancelAt (sched i) c :: slots))

instance {ε α : Type} [DecidableEq ε] [DecidableEq α] : DecidableEq (Except ε α) := fun
  | .error e, .error f =>
    if h : e = f then .isTrue (by rw [h]) else .isFalse (by intro hh; cases hh; exact h rfl)
  | .ok a, .ok b =>
    if h : a = b then .isTrue (by rw [h]) else .isFalse (by intro hh; cases hh; exact h rfl)
  | .error _, .ok _ => .isFalse (by intro hh; cases hh)
  | .ok _, .error _ => .isFalse (by intro hh; cases hh)

/-- What one invocation of the orchestrator did: whether `wg.Wait()` was
reached, how many tasks were dispatched, and the value returned to the
caller. -/
structure OrchResult where
  waited : Bool
  dispatched : Nat
  result : Except CheckError (List BinaryReport)
  deriving DecidableEq, Repr

/-- The orchestration part of `Check` (lines 86-146) on an already
collected candidate list.  A mid-loop cancellation returns `ctx.Err()`
without reaching `wg.Wait()`; when the loop completes, `Check` waits, then
re-checks cancellation and either discards everything or returns the slot
array (unwritten slots keep their Go zero value). -/
def CheckOrch (cancelAt : Nat → Bool) (sched : Nat → TaskSchedule)
    (cands : List Candidate) (finalObs : Nat) : OrchResult :=
  match dispatchAll cancelAt sched 0 cands with
  | (d, none) => ⟨false, d, .error .cancelled⟩
  | (d, some slots) =>
    if cancelAt finalObs then ⟨true, d, .error .cancelled⟩
    else ⟨true, d, .ok (slots.map (fun o => o.getD zeroReport))⟩

/-! ## Directory walk (`Check` lines 50-83, `shouldExcludePath` lines
183-198) -/

/-- Path prefixes excluded from scanning (`excludedPrefixes`). -/
def excludedPrefixes : List String :=
  ["/proc/", "/sys/", "/dev/"]

/-- `shouldExcludePath`: true iff the absolute path literally starts with
one of the fixed prefixes. -/
def shouldExcludePath (filePath : String) : Bool :=
  excludedPrefixes.any (fun pre => strStartsWith filePath pre)

/-- One entry handed to the `WalkDir` callback: its absolute path, the
per-entry error flag (`err != nil`), whether it is a directory, the
environment's answer to `isBinary`, and the candidate payload it would
contribute if collected. -/
structure FSEntry where
  path : String
  readErr : Bool
  isDir : Bool
  isGoBinary : Bool
  cand : Candidate
  deriving DecidableEq, Repr

/-- The `WalkDir` callback applied along the walk (lines 50-79), with one
cancellation observation time per visited entry.  Check order is the
source order: per-entry error, cancellation, directory, exclusion,
`isBinary`. -/
def walkModel (cancelAt : Nat → Bool) :
    List (FSEntry × Nat) → Except CheckError (List Candidate)
  | [] => .ok []
  | (e, t) :: rest =>
    if e.readErr then walkModel cancelAt rest
    else if cancelAt t then .error .walkCancelled
    else if e.isDir then walkModel cancelAt rest
    else if shouldExcludePath e.path then walkModel cancelAt rest
    else if e.isGoBinary then
      match walkModel cancelAt rest with
      | .error err => .error err
      | .ok cands => .ok (e.cand :: cands)
    else walkModel cancelAt rest

/-- Whole `Check`: walk, then orchestrate.  A walk error is returned as
such with no dispatch at all. -/
def CheckModel (cancelAt : Nat → Bool) (entries : List (FSEntry × Nat))
    (sched : Nat → TaskSchedule) (finalObs : Nat) : OrchResult :=
  match walkModel cancelAt entries with
  | .error e => ⟨false, 0, .error e⟩
  | .ok cands => CheckOrch cancelAt sched cands finalObs

/-! ## Write-once slot assembly (C7)

`reports[idx] = report` under the mutex: each task writes exactly once to
the slot fixed at discovery time.  Completion order is modelled as an
arbitrary permutation of the write events. -/

/-- The last value written to slot `j` by a list of `(index, value)` write
events, later events taking precedence (exactly what repeated
`List.set` leaves behind). -/
def lastWrite (j : Nat) : List (Nat × BinaryReport) → Option BinaryReport
  | [] => none
  | w :: ws =>
    match lastWrite j ws with
    | some r => some r
    | none => if w.1 == j then some w.2 else none

/-- Applying the write events of the tasks, in completion order, to the
zero-initialised slot array `make([]BinaryReport, n)`. -/
def applyWrites (n : Nat) (writes : List (Nat × BinaryReport)) : List BinaryReport :=
  writes.foldl (fun arr w => arr.set w.1 w.2) (List.replicate n zeroReport)

/-- Pair every list element with its index, starting at `n`. -/
def idxFrom {α : Type} : Nat → List α → List (Nat × α)
  | _, [] => []
  | n, a :: l => (n, a) :: idxFrom (n + 1) l

/-- The canonical write set of a scan without cancellation: task `i`
writes exactly the report of candidate `i` to slot `i`. -/
def canonicalWrites (cands : List Candidate) : List (Nat × BinaryReport) :=
  (idxFrom 0 cands).map (fun p => (p.1, mkReport false p.2))

/-! ## The admission semaphore (`semaphore := make(chan struct{}, 10)`)

A buffered channel of capacity 10 used as a counting semaphore: `free` is
the remaining buffer capacity, `holding` the number of tasks between
`semaphore <- struct{}{}` and `<-semaphore`, i.e. currently running their
check (and probe subprocess).  A send is only enabled while the buffer has
room; a receive only while some task holds a slot. -/

/-- State of the admission gate. -/
structure SemState where
  free : Nat
  holding : Nat
  deriving DecidableEq, Repr

/-- States reachable from the initial gate (empty buffer of capacity 10)
by acquire (blocking channel send, line 106) and release (channel
receive in the deferred function, line 107) steps. -/
inductive SemReachable : SemState → Prop where
  | start : SemReachable ⟨10, 0⟩
  | acquire (s : SemState) : SemReachable s → 0 < s.free →
      SemReachable ⟨s.free - 1, s.holding + 1⟩
  | release (s : SemState) : SemReachable s → 0 < s.holding →
      SemReachable ⟨s.free + 1, s.holding - 1⟩

/-! ## Compliance evaluator (C1)

Modelled from the spec: the SDK function `IsBinaryFIPSCompliant` realising
the ComplianceEvaluator of §4.5 is not among the sources — only its tests
(`TestIsBinaryFIPSCompliant`, `TestExampleUsage`) and callers are — so the
evaluator is transcribed from the spec's four-case priority table, and
checked below against the expectation table embedded from the in-repo
test. -/

/-- A compliance verdict. -/
inductive Verdict where
  | compliant
  | notCompliant
  deriving DecidableEq, Repr

/-- A verdict with its reason tag. -/
structure EvalResult where
  verdict : Verdict
  reason : String
  deriving DecidableEq, Repr

/-- Modelled from the spec: ComplianceEvaluator (§4.5), the four-case
priority table over `(usesSystemCrypto, runtimeProbePassed,
hostFipsCapable)`; the implementing SDK function `IsBinaryFIPSCompliant`
is not among the sources. -/
def complianceEvaluator (usesSystemCrypto runtimeProbePassed hostFipsCapable : Bool) :
    EvalResult :=
  if !usesSystemCrypto then
    ⟨.notCompliant, "crypto backend not engaged."⟩
  else if !runtimeProbePassed then
    ⟨.notCompliant, "runtime refused strict mode."⟩
  else if !hostFipsCapable then
    ⟨.notCompliant, "host lacks a validated cryptographic module."⟩
  else
    ⟨.compliant, "compliant (tentative)."⟩

/-- One row of the `TestIsBinaryFIPSCompliant` table: `UseSystemcrypto`,
`FailsOnFIPSCheck`, `hostCapable`, expected boolean result. -/
structure SrcTestRow where
  useSystemcrypto : Bool
  failsOnFIPSCheck : Bool
  hostCapable : Bool
  expected : Bool
  deriving DecidableEq, Repr

/-- The five cases of `TestIsBinaryFIPSCompliant`, embedded from the
in-repo test source (fully_compliant, no_systemcrypto, runtime_fails,
host_not_capable, multiple_issues). -/
def srcTestRows : List SrcTestRow :=
  [ ⟨true, false, true, true⟩
  , ⟨false, false, true, false⟩
  , ⟨true, true, true, false⟩
  , ⟨true, false, false, false⟩
  , ⟨false, true, false, false⟩ ]

/-- The boolean view of the evaluator, as `IsBinaryFIPSCompliant` exposes
it: the runtime probe passed iff `FailsOnFIPSCheck` is false. -/
def isCompliantBool (useSystemcrypto failsOnFIPSCheck hostCapable : Bool) : Bool :=
  (complianceEvaluator useSystemcrypto (!failsOnFIPSCheck) hostCapable).verdict
    == .compliant

/-! ## Sample data used by witnesses -/

/-- A candidate with readable provenance (systemcrypto build) whose probe
exits cleanly. -/
def goodCand : Candidate :=
  { relPath := "usr/local/bin/app"
    info := some
      { goVersion := "go1.24.4 X:systemcrypto"
        mainPath := "example.com/app"
        settings :=
          [ ⟨"CGO_ENABLED", "1"⟩
          , ⟨"GOEXPERIMENT", "opensslcrypto,systemcrypto"⟩ ] }
    probe := { stderrOutput := "", runFailed := false, deadlineExceeded := false } }

/-- A candidate whose provenance blob is unreadable
(`buildinfo.ReadFile` fails). -/
def badCand : Candidate :=
  { relPath := "usr/bin/corrupt"
    info := none
    probe := { stderrOutput := "", runFailed := false, deadlineExceeded := false } }

/-- A cancellation signal that fires at logical time 2 (monotone, like a
real context). -/
def cancelFromTwo : Nat → Bool := fun t => decide (2 ≤ t)

/-- A schedule where task 0's dispatch check happens before the signal
fires and task 1's after. -/
def schedTwo : Nat → TaskSchedule := fun i =>
  if i = 0 then ⟨0, 0, 0⟩ else ⟨3, 3, 3⟩

/-- The sole entry `WalkDir` produces for a non-existent root: the root
itself with a non-nil per-entry error. -/
def errEntry : FSEntry :=
  { path := "/does/not/exist"
    readErr := true
    isDir := false
    isGoBinary := false
    cand := goodCand }

/-- A go-binary file entry inside a `proc` subtree of an extracted
container filesystem (not the real `/proc`). -/
def procSubtreeEntry : FSEntry :=
  { path := "/tmp/rootfs/proc/app"
    readErr := false
    isDir := false
    isGoBinary := true
    cand := goodCand }

/-! # Theorems -/

/-! ## Correctness of the string primitives -/

theorem charsStartWith_iff (s p : List Char) :
    charsStartWith s p = true ↔ ∃ t, s = p ++ t := by
  induction p generalizing s with
  | nil =>
    constructor
    · intro _; exact ⟨s, rfl⟩
    · intro _; cases s <;> rfl
  | cons b p ih =>
    cases s with
    | nil =>
      constructor
      · intro h; simp [charsStartWith] at h
      · rintro ⟨t, ht⟩; simp at ht
    | cons a s =>
      rw [show charsStartWith (a :: s) (b :: p) = ((a == b) && charsStartWith s p)
        from rfl]
      rw [Bool.and_eq_true, beq_iff_eq, ih]
      constructor
      · rintro ⟨rfl, t, rfl⟩; exact ⟨t, rfl⟩
      · rintro ⟨t, ht⟩
        injection ht with h1 h2
        exact ⟨h1, t, h2⟩

theorem charsContains_iff (hay needle : List Char) :
    charsContains hay needle = true ↔ ∃ t u, hay = t ++ (needle ++ u) := by
  induction hay with
  | nil =>
    cases needle with
    | nil =>
      constructor
      · intro _; exact ⟨[], [], rfl⟩
      · intro _; rfl
    | cons b nb =>
      constructor
      · intro h; simp [charsContains] at h
      · rintro ⟨t, u, ht⟩; simp at ht
  | cons a hs ih =>
    rw [show charsContains (a :: hs) needle =
        (charsStartWith (a :: hs) needle || charsContains hs needle) from rfl]
    rw [Bool.or_eq_true, charsStartWith_iff, ih]
    constructor
    · rintro (⟨t, ht⟩ | ⟨t, u, rfl⟩)
      · exact ⟨[], t, by simpa using ht⟩
      · exact ⟨a :: t, u, rfl⟩
    · rintro ⟨t, u, ht⟩
      cases t with
      | nil => left; exact ⟨u, by simpa using ht⟩
      | cons x ts =>
        injection ht with h1 h2
        right; exact ⟨ts, u, h2⟩

theorem strContainsSub_iff (s sub : String) :
    strContainsSub s sub = true ↔ ∃ t u, s.data = t ++ (sub.data ++ u) := by
  rw [strContainsSub, charsContains_iff]

/-! ## The runtime probe -/

/-- Closed form of `checkRuntimeFIPS`: the passed flag is the negation of
the marker scan, the diagnostic is always the captured stderr, and the
error is always nil. -/
theorem checkRuntimeFIPS_eq (o : ExecOutcome) :
    checkRuntimeFIPS o =
      (!(fipsPanicIndicators.any fun ind => strContainsSub o.stderrOutput ind),
        o.stderrOutput, none) := by
  unfold checkRuntimeFIPS
  repeat' split <;> simp_all

/-- C3: for every probed candidate, the runtime probe result is FAILED,
with the captured stderr retained as diagnostic, iff the captured stderr
contains at least one of the fixed marker substrings; in every other case
(clean exit, unrelated error exit, or timeout) the result is PASSED. -/
theorem c3_probe_failed_iff_marker (o : ExecOutcome) :
    ((checkRuntimeFIPS o).1 = false ↔
      ∃ m, m ∈ fipsPanicIndicators ∧
        ∃ t u, o.stderrOutput.data = t ++ (m.data ++ u)) ∧
    (checkRuntimeFIPS o).2.1 = o.stderrOutput := by
  rw [checkRuntimeFIPS_eq]
  refine ⟨?_, rfl⟩
  rw [show ∀ b : Bool, ((!b) = false ↔ b = true) from by decide]
  rw [List.any_eq_true]
  simp only [strContainsSub_iff]

/-- C4: the code at a process-start failure (`cmd.Run()` fails before the
child produces any stderr, no deadline): the probe reports PASSED with a
nil error, and in fact no execution outcome whatsoever makes
`checkRuntimeFIPS` return a non-nil error — the distinct ProbeError the
spec requires is never produced. -/
theorem c4_no_probe_error_ever :
    checkRuntimeFIPS ⟨"", true, false⟩ = (true, "", none) ∧
    ∀ o : ExecOutcome, (checkRuntimeFIPS o).2.2 = none := by
  refine ⟨by decide, ?_⟩
  intro o
  rw [checkRuntimeFIPS_eq]

/-! ## The compliance evaluator -/

/-- C1: the compliance evaluation is a total function of the three
booleans implementing the four-case priority table: usesSystemCrypto
false gives NOT_COMPLIANT regardless of the other inputs; then a failed
runtime probe gives NOT_COMPLIANT; then a non-FIPS-capable host gives
NOT_COMPLIANT with the host-capability reason; only all-true is
COMPLIANT.  The model agrees with every expectation row of the in-repo
`TestIsBinaryFIPSCompliant` table. -/
theorem c1_compliance_evaluator_table :
    (∀ r h : Bool, complianceEvaluator false r h =
        ⟨.notCompliant, "crypto backend not engaged."⟩) ∧
    (∀ h : Bool, complianceEvaluator true false h =
        ⟨.notCompliant, "runtime refused strict mode."⟩) ∧
    complianceEvaluator true true false =
        ⟨.notCompliant, "host lacks a validated cryptographic module."⟩ ∧
    (complianceEvaluator true true true).verdict = .compliant ∧
    (srcTestRows.all fun row =>
        isCompliantBool row.useSystemcrypto row.failsOnFIPSCheck row.hostCapable
          == row.expected) = true := by
  decide

/-! ## The admission semaphore -/

/-- C8: in the counting-semaphore discipline of `Check` — every task
sends on the capacity-10 buffered channel before running its check and
receives when done — every reachable gate state keeps capacity plus
holders at 10, so at no point do more than 10 check tasks (hence probe
subprocesses) run concurrently. -/
theorem c8_semaphore_bound (s : SemState) (h : SemReachable s) :
    s.free + s.holding = 10 ∧ s.holding ≤ 10 := by
  induction h with
  | start => exact ⟨rfl, by decide⟩
  | acquire t ht hf ih =>
    obtain ⟨ih1, ih2⟩ := ih
    exact ⟨by show t.free - 1 + (t.holding + 1) = 10; omega,
      by show t.holding + 1 ≤ 10; omega⟩
  | release t ht hh ih =>
    obtain ⟨ih1, ih2⟩ := ih
    exact ⟨by show t.free + 1 + (t.holding - 1) = 10; omega,
      by show t.holding - 1 ≤ 10; omega⟩

theorem c8_semaphore_bound_witness :
    (⟨9, 1⟩ : SemState).free + (⟨9, 1⟩ : SemState).holding = 10 ∧
      (⟨9, 1⟩ : SemState).holding ≤ 10 :=
  c8_semaphore_bound ⟨9, 1⟩
    (SemReachable.acquire ⟨10, 0⟩ SemReachable.start (by decide))

/-! ## The path filter -/

/-- C10: a walked entry is excluded iff its absolute path literally
begins with one of the fixed strings "/proc/", "/sys/", "/dev/"; under a
scan root other than the real filesystem root, proc/sys/dev subtrees are
not excluded — the walk collects a go binary found there like any other
file. -/
theorem c10_path_filter :
    (∀ p : String, shouldExcludePath p = true ↔
      ∃ pre, pre ∈ excludedPrefixes ∧ ∃ t, p.data = pre.data ++ t) ∧
    shouldExcludePath "/tmp/rootfs/proc/self/exe" = false ∧
    shouldExcludePath "/tmp/rootfs/sys/kernel/config" = false ∧
    shouldExcludePath "/tmp/rootfs/dev/null" = false ∧
    shouldExcludePath "/proc/self/exe" = true ∧
    shouldExcludePath "/sys/kernel/config" = true ∧
    shouldExcludePath "/dev/null" = true ∧
    walkModel neverCancel [(procSubtreeEntry, 0)] = .ok [goodCand] := by
  refine ⟨?_, by decide, by decide, by decide, by decide, by decide, by decide, rfl⟩
  intro p
  rw [shouldExcludePath, List.any_eq_true]
  simp only [strStartsWith, charsStartWith_iff]

/-! ## The settings scan -/

theorem scanStep_eq (a b : Bool) (s : BuildSetting) :
    scanStep (a, b) s = (cgoFold a s, b || sysFlagOf s) := by
  unfold scanStep cgoFold sysFlagOf
  by_cases h1 : (s.key == "CGO_ENABLED") = true
  · have hk : s.key = "CGO_ENABLED" := by simpa using h1
    simp [hk, show ("CGO_ENABLED" == "GOEXPERIMENT") = false from by decide]
  · have h1' : (s.key == "CGO_ENABLED") = false := by simpa using h1
    by_cases h2 : (s.key == "GOEXPERIMENT") = true
    · by_cases h3 : strContainsSub s.value "systemcrypto" = true
      · simp [h1', h2, h3]
      · have h3' : strContainsSub s.value "systemcrypto" = false := by simpa using h3
        simp [h1', h2, h3']
    · have h2' : (s.key == "GOEXPERIMENT") = false := by simpa using h2
      simp [h1', h2']

theorem scanSettings_foldl (l : List BuildSetting) :
    ∀ a b : Bool, l.foldl scanStep (a, b) = (l.foldl cgoFold a, b || l.any sysFlagOf) := by
  induction l with
  | nil => intro a b; simp
  | cons s l ih =>
    intro a b
    rw [List.foldl_cons, scanStep_eq, ih, List.foldl_cons, List.any_cons,
      Bool.or_assoc]

theorem cgoFold_no_cgo (l : List BuildSetting)
    (hno : ∀ s ∈ l, isCgoSetting s = false) :
    ∀ a : Bool, l.foldl cgoFold a = a := by
  induction l with
  | nil => intro a; rfl
  | cons s l ih =>
    intro a
    have hs : (s.key == "CGO_ENABLED") = false := by
      simpa [isCgoSetting] using hno s (by simp)
    rw [List.foldl_cons, show cgoFold a s = a from by simp [cgoFold, hs]]
    exact ih (fun t ht => hno t (by simp [ht])) a

theorem cgoFold_char (l : List BuildSetting)
    (hdup : (l.filter isCgoSetting).length ≤ 1) :
    l.foldl cgoFold false = true ↔
      ∃ s, s ∈ l ∧ s.key = "CGO_ENABLED" ∧ s.value = "1" := by
  induction l with
  | nil => simp
  | cons s l ih =>
    rw [List.foldl_cons]
    by_cases h1 : isCgoSetting s = true
    · have hkey : s.key = "CGO_ENABLED" := by simpa [isCgoSetting] using h1
      have hfl : l.filter isCgoSetting = [] := by
        rw [List.filter_cons_of_pos h1] at hdup
        simpa using hdup
      have hno : ∀ t ∈ l, isCgoSetting t = false := by
        intro t ht
        simpa using List.filter_eq_nil_iff.mp hfl t ht
      rw [show cgoFold false s = (s.value == "1") from by
        simp [cgoFold, show (s.key == "CGO_ENABLED") = true from by
          simpa [isCgoSetting] using h1]]
      rw [cgoFold_no_cgo l hno, beq_iff_eq]
      constructor
      · intro hv; exact ⟨s, by simp, hkey, hv⟩
      · rintro ⟨t, htmem, htk, htv⟩
        rcases List.mem_cons.mp htmem with rfl | htl
        · exact htv
        · have hT : isCgoSetting t = true := by simp [isCgoSetting, htk]
          rw [hno t htl] at hT
          exact Bool.noConfusion hT
    · have h1' : isCgoSetting s = false := by simpa using h1
      have hdup' : (l.filter isCgoSetting).length ≤ 1 := by
        rwa [List.filter_cons_of_neg (by simp [h1'])] at hdup
      rw [show cgoFold false s = false from by
        simp [cgoFold, show (s.key == "CGO_ENABLED") = false from by
          simpa [isCgoSetting] using h1']]
      rw [ih hdup']
      constructor
      · rintro ⟨t, htl, rest⟩; exact ⟨t, by simp [htl], rest⟩
      · rintro ⟨t, htmem, htk, htv⟩
        rcases List.mem_cons.mp htmem with rfl | htl
        · have hT : isCgoSetting t = true := by simp [isCgoSetting, htk]
          rw [h1'] at hT
          exact Bool.noConfusion hT
        · exact ⟨t, htl, htk, htv⟩

/-- C6, counterexample: with a duplicated native-interop key the
extracted `cgoEnabled` flag is false even though the settings list
contains a `CGO_ENABLED` entry with value "1" — the loop assignment makes
the last occurrence win, contradicting the claim's "contains" reading. -/
theorem c6_counterexample :
    (scanSettings [⟨"CGO_ENABLED", "1"⟩, ⟨"CGO_ENABLED", "0"⟩]).1 = false ∧
    ∃ s, s ∈ ([⟨"CGO_ENABLED", "1"⟩, ⟨"CGO_ENABLED", "0"⟩] : List BuildSetting) ∧
      s.key = "CGO_ENABLED" ∧ s.value = "1" := by
  refine ⟨by decide, ⟨"CGO_ENABLED", "1"⟩, by simp, rfl, rfl⟩

/-- C6 (amended): when the native-interop key occurs at most once in the
build-settings list — as in actual Go build provenance — `cgoEnabled` is
true iff the list contains a `CGO_ENABLED` setting with the literal value
"1" (in general the last occurrence wins); `usesSystemCrypto` is true iff
some `GOEXPERIMENT` setting's value contains the substring
"systemcrypto", with no uniqueness proviso needed. -/
theorem c6_extraction_flags (settings : List BuildSetting)
    (hdup : (settings.filter isCgoSetting).length ≤ 1) :
    ((scanSettings settings).1 = true ↔
      ∃ s, s ∈ settings ∧ s.key = "CGO_ENABLED" ∧ s.value = "1") ∧
    ((scanSettings settings).2 = true ↔
      ∃ s, s ∈ settings ∧ s.key = "GOEXPERIMENT" ∧
        strContainsSub s.value "systemcrypto" = true) := by
  have hf := scanSettings_foldl settings false false
  constructor
  · rw [scanSettings, hf]
    exact cgoFold_char settings hdup
  · rw [scanSettings, hf]
    rw [show (settings.foldl cgoFold false,
        false || settings.any sysFlagOf).2 = settings.any sysFlagOf from by simp]
    rw [List.any_eq_true]
    simp only [sysFlagOf, Bool.and_eq_true, beq_iff_eq]

theorem c6_extraction_flags_witness :
    (scanSettings goodSettings).1 = true ∧ (scanSettings goodSettings).2 = true :=
  ⟨(c6_extraction_flags goodSettings (by decide)).1.mpr
      ⟨⟨"CGO_ENABLED", "1"⟩, by simp [goodSettings], rfl, rfl⟩,
    (c6_extraction_flags goodSettings (by decide)).2.mpr
      ⟨⟨"GOEXPERIMENT", "opensslcrypto,systemcrypto"⟩, by simp [goodSettings], rfl,
        by decide⟩⟩

/-! ## The orchestrator -/

theorem dispatchAll_neverCancel (sched : Nat → TaskSchedule) :
    ∀ (i : Nat) (cands : List Candidate),
      dispatchAll neverCancel sched i cands =
        (cands.length, some (cands.map (fun c => some (mkReport false c)))) := by
  intro i cands
  induction cands generalizing i with
  | nil => rfl
  | cons c rest ih =>
    simp [dispatchAll, neverCancel, ih (i + 1), runTask]

theorem dispatchAll_ok (cancelAt : Nat → Bool) (sched : Nat → TaskSchedule) :
    ∀ (cands : List Candidate) (i d : Nat) (slots : List (Option BinaryReport)),
      dispatchAll cancelAt sched i cands = (d, some slots) →
      slots.length = cands.length ∧
      ∀ j, slots[j]? = (cands[j]?).map (fun c => runTask cancelAt (sched (i + j)) c) := by
  intro cands
  induction cands with
  | nil =>
    intro i d slots h
    simp only [dispatchAll, Prod.mk.injEq, Option.some.injEq] at h
    obtain ⟨-, h2⟩ := h
    subst h2
    exact ⟨rfl, fun j => by simp⟩
  | cons c rest ih =>
    intro i d slots h
    by_cases hd : cancelAt (sched i).dispatch = true
    · simp [dispatchAll, hd] at h
    · have hd' : cancelAt (sched i).dispatch = false := by simpa using hd
      rcases hrec : dispatchAll cancelAt sched (i + 1) rest with ⟨d', os⟩
      cases os with
      | none => simp [dispatchAll, hd', hrec] at h
      | some s' =>
        simp only [dispatchAll, hd', Bool.false_eq_true, if_false, hrec,
          Prod.mk.injEq, Option.some.injEq] at h
        obtain ⟨-, h2⟩ := h
        subst h2
        obtain ⟨ihlen, ihget⟩ := ih (i + 1) d' s' hrec
        refine ⟨by simpa using ihlen, ?_⟩
        intro j
        cases j with
        | zero => simp
        | succ j =>
          rw [show (s'.length = rest.length) from ihlen] at *
          simp only [List.getElem?_cons_succ]
          rw [ihget j, show i + (j + 1) = (i + 1) + j from by omega]

/-- C5: with no cancellation, the scan returns one report per candidate
computed from that candidate alone; a candidate whose provenance is
unreadable carries the extraction error and zero-valued details (no
verdict), and every other slot holds the report of its own candidate,
unaffected. -/
theorem c5_extraction_error_isolated (cands : List Candidate)
    (sched : Nat → TaskSchedule) (finalObs : Nat) (i : Nat) (c : Candidate)
    (hc : cands[i]? = some c) (hnone : c.info = none) :
    (∃ reports : List BinaryReport,
      (CheckOrch neverCancel sched cands finalObs).result = .ok reports ∧
      reports[i]? = some (mkReport false c) ∧
      ∀ j : Nat, reports[j]? = (cands[j]?).map (mkReport false)) ∧
    (mkReport false c).error = some .extractionFailed ∧
    (mkReport false c).goBinaryDetails = zeroDetails := by
  have hrep : ∀ j, (cands.map (mkReport false))[j]? = (cands[j]?).map (mkReport false) :=
    fun j => List.getElem?_map (mkReport false) cands j
  refine ⟨⟨cands.map (mkReport false), ?_, ?_, hrep⟩, ?_, ?_⟩
  · rw [CheckOrch, dispatchAll_neverCancel]
    simp [neverCancel, List.map_map, Function.comp]
  · rw [hrep i, hc]; rfl
  · simp [mkReport, checkGoBinaryFIPS, hnone]
  · simp [mkReport, checkGoBinaryFIPS, hnone]

theorem c5_extraction_error_isolated_witness :
    (mkReport false badCand).error = some .extractionFailed ∧
    (mkReport false badCand).goBinaryDetails = zeroDetails :=
  (c5_extraction_error_isolated [goodCand, badCand] (fun _ => ⟨0, 0, 0⟩) 0 1 badCand
    rfl rfl).2

/-- C2 (amended): for every monotone cancellation signal whose task
observations precede the final `ctx.Err()` check, the caller receives
either the complete, fully-populated report collection — one real report
per candidate, in discovery order — or a cancellation error with no
reports; when the orchestrator returns without reaching `wg.Wait()` the
result is the cancellation error, and whenever the dispatch loop ran to
completion the orchestrator did wait for all tasks.  (The original
claim's "waits even when cancellation is observed mid-loop" is refuted by
`c2_counterexample`.) -/
theorem c2_cancellation_binary_guarantee (cancelAt : Nat → Bool)
    (hmono : MonotoneCancel cancelAt) (sched : Nat → TaskSchedule)
    (cands : List Candidate) (finalObs : Nat)
    (hobs : ∀ i, i < cands.length →
      (sched i).taskObs ≤ finalObs ∧ (sched i).innerObs ≤ finalObs) :
    (∀ reports, (CheckOrch cancelAt sched cands finalObs).result = .ok reports →
      reports = cands.map (mkReport false)) ∧
    ((CheckOrch cancelAt sched cands finalObs).waited = false →
      (CheckOrch cancelAt sched cands finalObs).result = .error .cancelled) ∧
    ((dispatchAll cancelAt sched 0 cands).2.isSome = true →
      (CheckOrch cancelAt sched cands finalObs).waited = true) := by
  rcases hda : dispatchAll cancelAt sched 0 cands with ⟨d, os⟩
  cases os with
  | none =>
    refine ⟨?_, ?_, ?_⟩
    · intro reports h
      simp [CheckOrch, hda] at h
    · intro _
      simp [CheckOrch, hda]
    · intro hsome
      simp at hsome
  | some slots =>
    obtain ⟨hlen, hget⟩ := dispatchAll_ok cancelAt sched cands 0 d slots hda
    by_cases hT : cancelAt finalObs = true
    · refine ⟨?_, ?_, ?_⟩
      · intro reports h
        simp [CheckOrch, hda, hT] at h
      · intro _
        simp [CheckOrch, hda, hT]
      · intro _
        simp [CheckOrch, hda, hT]
    · have hT' : cancelAt finalObs = false := by simpa using hT
      have hnc : ∀ t, t ≤ finalObs → cancelAt t = false := by
        intro t ht
        by_cases hct : cancelAt t = true
        · have := hmono t finalObs ht hct
          rw [hT'] at this
          exact Bool.noConfusion this
        · simpa using hct
      refine ⟨?_, ?_, ?_⟩
      · intro reports h
        simp only [CheckOrch, hda, hT', Bool.false_eq_true, if_false,
          Except.ok.injEq] at h
        subst h
        apply List.ext_getElem?
        intro j
        rw [List.getElem?_map, List.getElem?_map, hget j]
        cases hcj : cands[j]? with
        | none => rfl
        | some c =>
          have hj : j < cands.length := by
            by_contra hjn
            rw [List.getElem?_eq_none (by omega)] at hcj
            exact Option.noConfusion hcj
          obtain ⟨h1, h2⟩ := hobs j hj
          simp [runTask, hnc _ h1, hnc _ h2]
      · intro hw
        simp [CheckOrch, hda, hT'] at hw
      · intro _
        simp [CheckOrch, hda, hT']

theorem c2_cancellation_binary_guarantee_witness :
    (CheckOrch neverCancel (fun _ => ⟨0, 0, 0⟩) [goodCand] 0).waited = true :=
  (c2_cancellation_binary_guarantee neverCancel (fun _ _ _ h => h) (fun _ => ⟨0, 0, 0⟩)
    [goodCand] 0 (fun _ _ => ⟨Nat.le_refl 0, Nat.le_refl 0⟩)).2.2 (by rfl)

/-- C2 counterexample: a monotone cancellation that fires at time 2,
after task 0's dispatch (time 0) and before the dispatch check of task 1
(time 3): one task has been dispatched and is executing, yet `Check`
returns the cancellation error immediately with `waited = false` — it
does not wait for the already-dispatched task. -/
theorem c2_counterexample :
    MonotoneCancel cancelFromTwo ∧
    CheckOrch cancelFromTwo schedTwo [goodCand, badCand] 4 =
      ⟨false, 1, .error .cancelled⟩ := by
  constructor
  · intro s t hst h
    simp only [cancelFromTwo, decide_eq_true_eq] at h ⊢
    omega
  · rfl

/-! ## The walk -/

/-- C9: when the root entry itself is unreadable (a non-existent scan
root), the per-entry error handler skips it, the walk completes with zero
candidates, and `Check` returns an empty report collection with no
error. -/
theorem c9_nonexistent_root (cancelAt : Nat → Bool) (sched : Nat → TaskSchedule)
    (e : FSEntry) (t finalObs : Nat)
    (he : e.readErr = true) (hT : cancelAt finalObs = false) :
    CheckModel cancelAt [(e, t)] sched finalObs = ⟨true, 0, .ok []⟩ := by
  simp [CheckModel, walkModel, he, CheckOrch, dispatchAll, hT]

theorem c9_nonexistent_root_witness :
    CheckModel neverCancel [(errEntry, 0)] (fun _ => ⟨0, 0, 0⟩) 0 = ⟨true, 0, .ok []⟩ :=
  c9_nonexistent_root neverCancel (fun _ => ⟨0, 0, 0⟩) errEntry 0 0 rfl rfl

/-! ## Write-once slot assembly -/

theorem foldl_set_getElem? (writes : List (Nat × BinaryReport)) :
    ∀ (init : List BinaryReport) (j : Nat),
      (writes.foldl (fun arr w => arr.set w.1 w.2) init)[j]? =
        match lastWrite j writes with
        | some r => if j < init.length then some r else none
        | none => init[j]? := by
  induction writes with
  | nil => intro init j; simp [lastWrite]
  | cons w ws ih =>
    intro init j
    rw [List.foldl_cons, ih (init.set w.1 w.2) j]
    cases hlw : lastWrite j ws with
    | some r =>
      rw [show lastWrite j (w :: ws) = some r from by simp [lastWrite, hlw]]
      rw [List.length_set]
    | none =>
      by_cases hij : w.1 = j
      · have hcons : lastWrite j (w :: ws) = some w.2 := by
          simp [lastWrite, hlw, hij]
        rw [hcons]
        subst hij
        show (init.set w.1 w.2)[w.1]? = if w.1 < init.length then some w.2 else none
        by_cases hlen : w.1 < init.length
        · rw [List.getElem?_set_self hlen, if_pos hlen]
        · rw [if_neg hlen]
          apply List.getElem?_eq_none
          rw [List.length_set]
          omega
      · have hcons : lastWrite j (w :: ws) = none := by
          simp [lastWrite, hlw, hij]
        rw [hcons]
        show (init.set w.1 w.2)[j]? = init[j]?
        rw [List.getElem?_set_ne hij]

theorem lastWrite_of_no_writes (j : Nat) (ws : List (Nat × BinaryReport))
    (h : ws.filter (fun w => w.1 == j) = []) : lastWrite j ws = none := by
  induction ws with
  | nil => rfl
  | cons w ws ih =>
    by_cases hw : (w.1 == j) = true
    · simp [List.filter_cons, hw] at h
    · have hw' : (w.1 == j) = false := by simpa using hw
      simp only [List.filter_cons, hw', Bool.false_eq_true, if_false] at h
      simp [lastWrite, ih h, hw']

theorem lastWrite_of_single (j : Nat) (r : BinaryReport)
    (ws : List (Nat × BinaryReport))
    (h : ws.filter (fun w => w.1 == j) = [(j, r)]) : lastWrite j ws = some r := by
  induction ws with
  | nil => simp at h
  | cons w ws ih =>
    by_cases hw : (w.1 == j) = true
    · simp only [List.filter_cons, hw, if_true] at h
      injection h with h1 h2
      subst h1
      simp [lastWrite, lastWrite_of_no_writes j ws h2]
    · have hw' : (w.1 == j) = false := by simpa using hw
      simp only [List.filter_cons, hw', Bool.false_eq_true, if_false] at h
      simp [lastWrite, ih h]

theorem idxFrom_filter (j : Nat) (cands : List Candidate) :
    ∀ n : Nat,
      ((idxFrom n cands).map (fun p => (p.1, mkReport false p.2))).filter
          (fun w => w.1 == j) =
        match (if n ≤ j then cands[j - n]? else none) with
        | some c => [(j, mkReport false c)]
        | none => [] := by
  induction cands with
  | nil =>
    intro n
    simp [idxFrom]
  | cons c cs ih =>
    intro n
    rw [show idxFrom n (c :: cs) = (n, c) :: idxFrom (n + 1) cs from rfl,
      List.map_cons]
    by_cases hnj : (n == j) = true
    · have hn : n = j := by simpa using hnj
      subst hn
      rw [show ((n, c).1, mkReport false (n, c).2) = (n, mkReport false c) from rfl]
      simp only [List.filter_cons, hnj, if_true]
      rw [ih]
      simp [show ¬(n + 1 ≤ n) from by omega, Nat.sub_self]
    · have hnj' : (n == j) = false := by simpa using hnj
      have hne : ¬n = j := by simpa using hnj
      rw [show ((n, c).1, mkReport false (n, c).2) = (n, mkReport false c) from rfl]
      simp only [List.filter_cons, hnj', Bool.false_eq_true, if_false]
      rw [ih]
      by_cases hle : n ≤ j
      · have hle1 : n + 1 ≤ j := by omega
        have hsub : j - n = (j - (n + 1)) + 1 := by omega
        rw [if_pos hle, if_pos hle1, hsub, List.getElem?_cons_succ]
      · rw [if_neg hle, if_neg (by omega)]

/-- C7: for every scan, the assembled report collection holds exactly one
report per discovered candidate in discovery order: applying the tasks'
write events — each task writing once to the slot index fixed at
discovery — in ANY completion order (any permutation of the canonical
write set) to the zero-initialised slot array yields the reports in
discovery order; no candidate appears twice. -/
theorem c7_write_once (cands : List Candidate) (writes : List (Nat × BinaryReport))
    (hperm : writes.Perm (canonicalWrites cands)) :
    applyWrites cands.length writes = cands.map (mkReport false) := by
  have hfilter : ∀ j : Nat, writes.filter (fun w => w.1 == j) =
      match cands[j]? with
      | some c => [(j, mkReport false c)]
      | none => [] := by
    intro j
    have hp := hperm.filter (fun w => w.1 == j)
    rw [canonicalWrites, idxFrom_filter j cands 0] at hp
    rw [show (if 0 ≤ j then cands[j - 0]? else none) = cands[j]? from by simp] at hp
    cases hcj : cands[j]? with
    | none =>
      rw [hcj] at hp
      exact List.perm_nil.mp hp
    | some c =>
      rw [hcj] at hp
      exact List.perm_singleton.mp hp
  apply List.ext_getElem?
  intro j
  rw [applyWrites, foldl_set_getElem? writes (List.replicate cands.length zeroReport) j]
  cases hcj : cands[j]? with
  | none =>
    have hj : cands.length ≤ j := by
      by_contra hjn
      rw [List.getElem?_eq_getElem (by omega)] at hcj
      exact Option.noConfusion hcj
    have hfw : writes.filter (fun w => w.1 == j) = [] := by
      rw [hfilter j, hcj]
    rw [lastWrite_of_no_writes j writes hfw]
    rw [List.getElem?_eq_none (by simpa using hj),
      List.getElem?_eq_none (by simpa using hj)]
  | some c =>
    have hj : j < cands.length := by
      by_contra hjn
      rw [List.getElem?_eq_none (by omega)] at hcj
      exact Option.noConfusion hcj
    have hfw : writes.filter (fun w => w.1 == j) = [(j, mkReport false c)] := by
      rw [hfilter j, hcj]
    rw [lastWrite_of_single j (mkReport false c) writes hfw]
    show (if j < (List.replicate cands.length zeroReport).length
        then some (mkReport false c) else none) = (cands.map (mkReport false))[j]?
    rw [List.length_replicate, if_pos hj, List.getElem?_map, hcj]
    rfl

theorem c7_write_once_witness :
    applyWrites ([goodCand, badCand] : List Candidate).length
        [(1, mkReport false badCand), (0, mkReport false goodCand)] =
      ([goodCand, badCand] : List Candidate).map (mkReport false) :=
  c7_write_once [goodCand, badCand]
    [(1, mkReport false badCand), (0, mkReport false goodCand)]
    (List.Perm.swap (0, mkReport false goodCand) (1, mkReport false badCand) [])

end FipsCheck
